import Mathlib

/-!
Verification development for the chaintracks-server header-tracking engine.

The definitions below are a shallow embedding of the engine described in
`src/ARCHITECTURE.md` (insertHeader, handleReorg, the main processing loop,
the two-tier storage) and of the export logic in `src/src/server.ts`
(exportBulkHeaders).  Hashes are modelled as natural numbers; maps keyed by
hash or height are association lists with first-match lookup semantics,
mirroring the JavaScript `Map` objects of `ChaintracksStorageNoDb`.
-/

namespace Chaintracks

/-- A block header as tracked by the service: the six wire fields plus the
derived `height` and `hash` (`src/ARCHITECTURE.md`, Storage Data Structures).
Hash digests are modelled as natural numbers. -/
structure BlockHeader where
  version : Nat
  previousHash : Nat
  merkleRoot : Nat
  time : Nat
  bits : Nat
  nonce : Nat
  height : Nat
  hash : Nat
deriving DecidableEq, Repr

/-- A live-tier entry: `{header, chainWork, isActive}`
(`src/ARCHITECTURE.md`, `liveHeaders: Map<string, LiveBlockHeader>`). -/
structure LiveBlockHeader where
  header : BlockHeader
  chainWork : Nat
  isActive : Bool
deriving DecidableEq, Repr

/-- Association-list lookup with first-match semantics, modelling
`Map.get`. -/
def alookup {α : Type} : List (Nat × α) → Nat → Option α
  | [], _ => none
  | (k', v) :: rest, k => if k = k' then some v else alookup rest k

/-- Association-list insertion/overwrite, modelling `Map.set`: the new pair
shadows any older binding of the same key. -/
def aset {α : Type} (m : List (Nat × α)) (k : Nat) (v : α) : List (Nat × α) :=
  (k, v) :: m

/-- Association-list deletion, modelling `Map.delete`. -/
def adel {α : Type} : List (Nat × α) → Nat → List (Nat × α)
  | [], _ => []
  | (k', v) :: rest, k => if k' = k then adel rest k else (k', v) :: adel rest k

/-- The in-memory chain store of `ChaintracksStorageNoDb`
(`src/ARCHITECTURE.md`, Storage Data Structures): the live headers map
(hash → entry), the active chain index (height → hash), the hash of the
current active tip, and the configured maximum resolvable reorg depth. -/
structure ChainStore where
  liveHeaders : List (Nat × LiveBlockHeader)
  activeByHeight : List (Nat × Nat)
  tipHash : Nat
  reorgHeightThreshold : Nat
deriving Repr

/-- The result record of `insertHeader`
(`src/ARCHITECTURE.md`, `Return InsertHeaderResult`), together with the
`noPrev` signal used by the main loop. -/
structure InsertResult where
  added : Bool := false
  dupe : Bool := false
  isActiveTip : Bool := false
  noPrev : Bool := false
  reorgDepth : Nat := 0
  deactivatedHeaders : List BlockHeader := []
  priorTip : Option BlockHeader := none
deriving DecidableEq, Repr

/-- Walk back from the candidate tip and the active tip simultaneously until
the hashes match, collecting each chain's hash list
(`src/ARCHITECTURE.md`, handleReorg: "Walk back from both tips until hashes
match").  The higher chain is stepped first so that the two walks compare
headers of equal height.  `fuel` bounds the walk so the recursion is total;
callers pass fuel that dominates the chain heights. -/
def walkBack (s : ChainStore) : Nat → Nat → Nat → Option (List Nat × List Nat × Nat)
  | 0, nh, oh => if nh = oh then some ([], [], nh) else none
  | fuel + 1, nh, oh =>
    if nh = oh then some ([], [], nh)
    else
      match alookup s.liveHeaders nh, alookup s.liveHeaders oh with
      | some ne, some oe =>
        if oe.header.height < ne.header.height then
          (walkBack s fuel ne.header.previousHash oh).map
            (fun r => (nh :: r.1, r.2.1, r.2.2))
        else if ne.header.height < oe.header.height then
          (walkBack s fuel nh oe.header.previousHash).map
            (fun r => (r.1, oh :: r.2.1, r.2.2))
        else
          (walkBack s fuel ne.header.previousHash oe.header.previousHash).map
            (fun r => (nh :: r.1, oh :: r.2.1, r.2.2))
      | _, _ => none

/-- Deactivate every header in the old-chain list: remove its height from the
active index and mark the live entry `isActive := false`
(`src/ARCHITECTURE.md`, handleReorg: "Deactivate old chain"). -/
def deactivateHashes : ChainStore → List Nat → ChainStore
  | s, [] => s
  | s, h :: rest =>
    match alookup s.liveHeaders h with
    | some e =>
      deactivateHashes
        { s with
          activeByHeight := adel s.activeByHeight e.header.height,
          liveHeaders := aset s.liveHeaders h { e with isActive := false } } rest
    | none => deactivateHashes s rest

/-- Activate every header in the new-chain list: set its height in the active
index and mark the live entry `isActive := true`
(`src/ARCHITECTURE.md`, handleReorg: "Activate new chain"). -/
def activateHashes : ChainStore → List Nat → ChainStore
  | s, [] => s
  | s, h :: rest =>
    match alookup s.liveHeaders h with
    | some e =>
      activateHashes
        { s with
          activeByHeight := aset s.activeByHeight e.header.height h,
          liveHeaders := aset s.liveHeaders h { e with isActive := true } } rest
    | none => activateHashes s rest

/-- The block headers stored under a list of hashes, in list order. -/
def headersOf (s : ChainStore) (hs : List Nat) : List BlockHeader :=
  hs.filterMap (fun h => (alookup s.liveHeaders h).map (fun e => e.header))

/-- Chain reorganization handler (`src/ARCHITECTURE.md`, handleReorg): find
the common ancestor by walking back from both tips, and if the old-chain
depth is within `reorgHeightThreshold`, deactivate the old chain, activate
the new chain and report `depth = oldChain.length` with the deactivated
headers; otherwise reject (`none`), leaving the caller's state untouched. -/
def handleReorg (s : ChainStore) (newTipHash oldTipHash : Nat) :
    Option (ChainStore × Nat × List BlockHeader) :=
  match alookup s.liveHeaders newTipHash, alookup s.liveHeaders oldTipHash with
  | some ne, some oe =>
    match walkBack s (ne.header.height + oe.header.height + 1) newTipHash oldTipHash with
    | some (newChain, oldChain, _anc) =>
      if oldChain.length ≤ s.reorgHeightThreshold then
        let deacts := headersOf s oldChain
        let s1 := deactivateHashes s oldChain
        let s2 := activateHashes s1 newChain
        some ({ s2 with tipHash := newTipHash }, oldChain.length, deacts)
      else none
    | none => none
  | _, _ => none

/-- Add a candidate to the live headers map as an (initially inactive)
entry with the given cumulative work
(`src/ARCHITECTURE.md`, insertHeader: `liveHeaders.set(header.hash,
{header, chainWork})`). -/
def addLiveEntry (s : ChainStore) (cand : BlockHeader) (cw : Nat) : ChainStore :=
  { s with liveHeaders := aset s.liveHeaders cand.hash ⟨cand, cw, false⟩ }

/-- Header insertion (`src/ARCHITECTURE.md`, insertHeader): dupe check, find
previous header (`noPrev` if absent), validate the height link, compute
`chainWork = prev.chainWork + blockWork(bits)`, add to the live map, and if
the chainWork exceeds the active tip's delegate to `handleReorg`, else keep
the candidate as an inactive side-chain entry.  `blockWork` is a parameter:
the work increment derived from the compact `bits` field, whose formula is
not given in the source. -/
def insertHeader (blockWork : Nat → Nat) (s : ChainStore) (cand : BlockHeader) :
    ChainStore × InsertResult :=
  if (alookup s.liveHeaders cand.hash).isSome then
    (s, { dupe := true })
  else
    match alookup s.liveHeaders cand.previousHash with
    | none => (s, { noPrev := true })
    | some prev =>
      if cand.height ≠ prev.header.height + 1 then (s, {})
      else
        let cw := prev.chainWork + blockWork cand.bits
        let s1 := addLiveEntry s cand cw
        match alookup s.liveHeaders s.tipHash with
        | some te =>
          if te.chainWork < cw then
            match handleReorg s1 cand.hash s.tipHash with
            | some (s2, depth, deacts) =>
              (s2, { added := true, isActiveTip := true, reorgDepth := depth,
                     deactivatedHeaders := deacts, priorTip := some te.header })
            | none => (s1, { added := true, priorTip := some te.header })
          else (s1, { added := true, priorTip := some te.header })
        | none => (s1, { added := true })

/-- Active-chain height query (`src/ARCHITECTURE.md`, findHeaderForHeight):
active index lookup, then fetch of the live entry by hash. -/
def findHeaderForHeight (s : ChainStore) (height : Nat) : Option BlockHeader :=
  match alookup s.activeByHeight height with
  | some h => (alookup s.liveHeaders h).map (fun e => e.header)
  | none => none

/-- The main loop notifies header subscribers when `added && isActiveTip`
(`src/ARCHITECTURE.md`, Processing Algorithm). -/
def notifiesHeaderListeners (r : InsertResult) : Bool :=
  r.added && r.isActiveTip

/-- The main loop additionally notifies reorg subscribers when
`reorgDepth > 0` (`src/ARCHITECTURE.md`, Processing Algorithm). -/
def notifiesReorgListeners (r : InsertResult) : Bool :=
  r.added && r.isActiveTip && decide (0 < r.reorgDepth)

/-- Outcome of one iteration of the live-header processing loop. -/
structure MainStepResult where
  store : ChainStore
  queue : List BlockHeader
  recursions : Nat
  dropped : Bool
  notifiedHeader : Bool
  notifiedReorg : Bool
deriving Repr

/-- One iteration of `mainThreadShiftLiveHeaders` applied to the popped
header `hdr` with remaining queue `rest`
(`src/ARCHITECTURE.md`, Processing Algorithm): insert the header; on
`noPrev` within the recursion limit, fetch the missing parent from the
external source and, if found, push the original back onto the front of the
queue with the parent ahead of it; if the parent cannot be fetched or the
limit is hit, drop the header.  Otherwise fire the subscriber
notifications according to the insert result. -/
def mainThreadStep (blockWork : Nat → Nat) (s : ChainStore) (hdr : BlockHeader)
    (rest : List BlockHeader) (recursions addLiveRecursionLimit : Nat)
    (getMissingBlockHeader : Nat → Option BlockHeader) : MainStepResult :=
  let sr := insertHeader blockWork s hdr
  if sr.2.noPrev then
    if recursions < addLiveRecursionLimit then
      match getMissingBlockHeader hdr.previousHash with
      | some prevHeader => ⟨sr.1, prevHeader :: hdr :: rest, recursions + 1, false, false, false⟩
      | none => ⟨sr.1, rest, recursions, true, false, false⟩
    else ⟨sr.1, rest, recursions, true, false, false⟩
  else
    ⟨sr.1, rest, recursions, false, notifiesHeaderListeners sr.2, notifiesReorgListeners sr.2⟩

/-- Little-endian byte encoding of a value into a fixed number of bytes,
as used by the 80-byte header wire form. -/
def toBytesLE : Nat → Nat → List Nat
  | 0, _ => []
  | w + 1, v => v % 256 :: toBytesLE w (v / 256)

/-- The fixed 80-byte serialized header wire form
(4 + 32 + 32 + 4 + 4 + 4 bytes; `spec.md` §6 and
`src/unnamed/part_000`, GET /getHeaders). -/
def serializeBlockHeader (h : BlockHeader) : List Nat :=
  toBytesLE 4 h.version ++ toBytesLE 32 h.previousHash ++ toBytesLE 32 h.merkleRoot ++
    toBytesLE 4 h.time ++ toBytesLE 4 h.bits ++ toBytesLE 4 h.nonce

/-- Range query (`src/unnamed/part_000`, GET /getHeaders, and the
`getHeaders(height, count)` contract): the concatenation of `count`
consecutive active-chain headers starting at `height`, each in its 80-byte
wire form; the whole query fails (`none`) if any requested height is
missing. -/
def getHeaders (s : ChainStore) : Nat → Nat → Option (List Nat)
  | _, 0 => some []
  | height, count + 1 =>
    match findHeaderForHeight s height with
    | none => none
    | some hdr => (getHeaders s (height + 1) count).map (fun bs => serializeBlockHeader hdr ++ bs)

/-- Bulk-tier storage (`src/ARCHITECTURE.md`, BulkFileDataManager): a map
from file number to the file's byte content, where each file holds up to
`maxPerFile` serialized 80-byte headers and `fileNumber = height / maxPerFile`. -/
structure BulkStorage where
  files : List (Nat × List Nat)
  maxPerFile : Nat
deriving Repr

/-- Append one serialized header to its bulk file, as done by
`bulkMigration` when moving a live entry into the bulk tier: headers are
migrated in ascending height order, so each header's bytes are appended at
offset `(height % maxPerFile) * 80` of file `height / maxPerFile`. -/
def appendBulkHeader (b : BulkStorage) (hdr : BlockHeader) : BulkStorage :=
  let fn := hdr.height / b.maxPerFile
  let content := (alookup b.files fn).getD []
  { b with files := aset b.files fn (content ++ serializeBlockHeader hdr) }

/-- Bulk-tier height query (`src/ARCHITECTURE.md`, BulkFileDataManager
`getHeader`): index into file `height / maxPerFile` at byte offset
`(height % maxPerFile) * 80` and return the 80-byte slice. -/
def getBulkHeaderBytes (b : BulkStorage) (height : Nat) : Option (List Nat) :=
  match alookup b.files (height / b.maxPerFile) with
  | none => none
  | some content =>
    let offset := height % b.maxPerFile * 80
    if offset + 80 ≤ content.length then some ((content.drop offset).take 80) else none

/-- Migration of a single live entry into the bulk tier
(`src/ARCHITECTURE.md`, `bulkMigration(): Move live → bulk storage`): the
entry is removed from the live map and its header's serialized bytes are
appended to the appropriate bulk file. -/
def migrateOneToBulk (s : ChainStore) (b : BulkStorage) (h : Nat) :
    ChainStore × BulkStorage :=
  match alookup s.liveHeaders h with
  | some e => ({ s with liveHeaders := adel s.liveHeaders h }, appendBulkHeader b e.header)
  | none => (s, b)

/-- The mutable state read and written by `exportBulkHeaders` in
`src/src/server.ts` (lines 196-198): the height at which the last export
ran and the in-progress flag. -/
structure ExportState where
  lastExportedHeight : Nat
  isExporting : Bool
deriving DecidableEq, Repr

/-- The exit path taken by one invocation of `exportBulkHeaders`. -/
inductive ExportOutcome where
  | skippedDisabled
  | skippedBusy
  | exported
  | exportFailed
  | skippedNoBoundary
deriving DecidableEq, Repr

/-- The `exportBulkHeaders` closure of `src/src/server.ts` (lines 201-265):
return early when the CDN is disabled or an export is already in progress;
otherwise set the in-progress flag, export when a 100k-height milestone was
crossed or nothing was exported yet, record `lastExportedHeight` only after
a successful export, and clear the in-progress flag on every exit of the
try block (the `finally`), including when the export call throws
(`exportOk = false`). -/
def exportBulkHeaders (enableBulkHeadersCDN : Bool) (st : ExportState)
    (currentHeight : Nat) (exportOk : Bool) : ExportState × ExportOutcome :=
  if !enableBulkHeadersCDN then (st, .skippedDisabled)
  else if st.isExporting then (st, .skippedBusy)
  else
    let currentMilestone := currentHeight / 100000
    let lastMilestone := st.lastExportedHeight / 100000
    let shouldExport := lastMilestone < currentMilestone || st.lastExportedHeight == 0
    if shouldExport then
      if exportOk then ({ lastExportedHeight := currentHeight, isExporting := false }, .exported)
      else ({ st with isExporting := false }, .exportFailed)
    else ({ st with isExporting := false }, .skippedNoBoundary)

/-- A chain segment strictly above a common ancestor, listed tip-first:
`ChainAbove s anc ancH [h_n, ..., h_1]` states that each `h_i` is stored in
the live map with height `ancH + i` and that the `previousHash` links run
`h_n → h_{n-1} → ... → h_1 → anc`. -/
def ChainAbove (s : ChainStore) (ancHash ancHeight : Nat) : List Nat → Prop
  | [] => True
  | h :: rest =>
    (∃ e, alookup s.liveHeaders h = some e ∧
      e.header.height = ancHeight + rest.length + 1 ∧
      e.header.previousHash = rest.headD ancHash) ∧
    ChainAbove s ancHash ancHeight rest

/-- The persistent content of a live entry: its header and cumulative work.
Reorg resolution only flips `isActive`; it never changes this content. -/
def liveContent (s : ChainStore) (h : Nat) : Option (BlockHeader × Nat) :=
  (alookup s.liveHeaders h).map (fun e => (e.header, e.chainWork))

/-- The height/chainWork linkage invariant of the live map
(`src/ARCHITECTURE.md`, insertHeader: `Validate previous.height =
header.height - 1` and `chainWork = prev.chainWork + blockWork(header.bits)`):
every stored entry whose parent is also stored sits one height above it and
carries the parent's cumulative work plus its own increment. -/
def WorkInvariant (blockWork : Nat → Nat) (s : ChainStore) : Prop :=
  ∀ h e, alookup s.liveHeaders h = some e →
    ∀ p, alookup s.liveHeaders e.header.previousHash = some p →
      e.header.height = p.header.height + 1 ∧
      e.chainWork = p.chainWork + blockWork e.header.bits

theorem alookup_aset {α : Type} (m : List (Nat × α)) (k k' : Nat) (v : α) :
    alookup (aset m k v) k' = if k' = k then some v else alookup m k' := by
  simp [aset, alookup]

theorem alookup_adel {α : Type} (m : List (Nat × α)) (k k' : Nat) :
    alookup (adel m k) k' = if k' = k then none else alookup m k' := by
  induction m with
  | nil => simp [adel, alookup]
  | cons p rest ih =>
    obtain ⟨a, b⟩ := p
    by_cases hak : a = k
    · subst hak
      by_cases hk : k' = a
      · subst hk; simp [adel, ih]
      · simp [adel, alookup, hk, ih]
    · by_cases hk : k' = a
      · subst hk
        simp [adel, hak, alookup]
      · simp [adel, hak, alookup, hk, ih]

theorem insertHeader_noPrev_noMutation (blockWork : Nat → Nat) (s : ChainStore)
    (cand : BlockHeader) (h : (insertHeader blockWork s cand).2.noPrev = true) :
    insertHeader blockWork s cand = (s, { noPrev := true }) := by
  by_cases hdup : (alookup s.liveHeaders cand.hash).isSome
  · simp [insertHeader, hdup] at h
  · cases hprev : alookup s.liveHeaders cand.previousHash with
    | none => simp [insertHeader, hdup, hprev]
    | some prev =>
      exfalso
      by_cases hh : cand.height = prev.header.height + 1
      · cases htip : alookup s.liveHeaders s.tipHash with
        | none => simp [insertHeader, hdup, hprev, hh, htip] at h
        | some te =>
          by_cases hlt : te.chainWork < prev.chainWork + blockWork cand.bits
          · simp only [insertHeader, hdup, hprev, hh, htip, hlt] at h
            simp at h
            split at h <;> simp_all
          · simp [insertHeader, hdup, hprev, hh, htip, hlt] at h
      · simp [insertHeader, hdup, hprev, hh] at h

/-- C4: for every header whose hash is already known to the store, calling
insertHeader with it returns `dupe = true` and leaves the ActiveIndex, the
live-header map and the fired subscriber notifications unchanged:
re-submission is a no-op. -/
theorem insertHeader_dupe_idempotent (blockWork : Nat → Nat) (s : ChainStore)
    (cand : BlockHeader) (h : (alookup s.liveHeaders cand.hash).isSome = true) :
    insertHeader blockWork s cand = (s, { dupe := true }) ∧
    (insertHeader blockWork s cand).2.added = false ∧
    notifiesHeaderListeners (insertHeader blockWork s cand).2 = false ∧
    notifiesReorgListeners (insertHeader blockWork s cand).2 = false := by
  simp [insertHeader, h, notifiesHeaderListeners, notifiesReorgListeners]

theorem insertHeader_dupe_idempotent_witness :
    insertHeader (fun b => b)
        ⟨[(5, ⟨⟨1, 0, 0, 0, 2, 0, 1, 5⟩, 3, true⟩)], [(1, 5)], 5, 400⟩
        ⟨1, 0, 0, 0, 2, 0, 1, 5⟩ =
      (⟨[(5, ⟨⟨1, 0, 0, 0, 2, 0, 1, 5⟩, 3, true⟩)], [(1, 5)], 5, 400⟩,
        { dupe := true }) :=
  (insertHeader_dupe_idempotent (fun b => b)
    ⟨[(5, ⟨⟨1, 0, 0, 0, 2, 0, 1, 5⟩, 3, true⟩)], [(1, 5)], 5, 400⟩
    ⟨1, 0, 0, 0, 2, 0, 1, 5⟩ (by decide)).1

/-- C7: a candidate tip whose chainWork exactly equals the current active
tip's chainWork does not displace it: the existing tip is kept (first-seen
wins), no reorg occurs, the ActiveIndex is unchanged and the candidate is
stored only as a non-activating side-chain entry. -/
theorem insertHeader_equalWork_keepsTip (blockWork : Nat → Nat) (s : ChainStore)
    (cand : BlockHeader) (prev te : LiveBlockHeader)
    (hnew : alookup s.liveHeaders cand.hash = none)
    (hprev : alookup s.liveHeaders cand.previousHash = some prev)
    (hheight : cand.height = prev.header.height + 1)
    (htip : alookup s.liveHeaders s.tipHash = some te)
    (heq : prev.chainWork + blockWork cand.bits = te.chainWork) :
    (insertHeader blockWork s cand).1.activeByHeight = s.activeByHeight ∧
    (insertHeader blockWork s cand).1.tipHash = s.tipHash ∧
    (insertHeader blockWork s cand).2.isActiveTip = false ∧
    (insertHeader blockWork s cand).2.reorgDepth = 0 ∧
    (insertHeader blockWork s cand).2.added = true ∧
    alookup (insertHeader blockWork s cand).1.liveHeaders cand.hash =
      some ⟨cand, prev.chainWork + blockWork cand.bits, false⟩ ∧
    (∀ h, h ≠ cand.hash →
      alookup (insertHeader blockWork s cand).1.liveHeaders h = alookup s.liveHeaders h) := by
  have hlt : ¬ te.chainWork < prev.chainWork + blockWork cand.bits := by
    rw [heq]; exact lt_irrefl _
  refine ⟨?_, ?_, ?_, ?_, ?_, ?_, ?_⟩
  · simp [insertHeader, hnew, hprev, hheight, htip, hlt, addLiveEntry]
  · simp [insertHeader, hnew, hprev, hheight, htip, hlt, addLiveEntry]
  · simp [insertHeader, hnew, hprev, hheight, htip, hlt]
  · simp [insertHeader, hnew, hprev, hheight, htip, hlt]
  · simp [insertHeader, hnew, hprev, hheight, htip, hlt]
  · simp [insertHeader, hnew, hprev, hheight, htip, hlt, addLiveEntry, alookup_aset]
  · intro h hne
    simp [insertHeader, hnew, hprev, hheight, htip, hlt, addLiveEntry, alookup_aset, hne]

theorem insertHeader_equalWork_keepsTip_witness :
    (insertHeader (fun b => b)
        ⟨[(5, ⟨⟨1, 0, 0, 0, 2, 0, 1, 5⟩, 3, true⟩)], [(1, 5)], 5, 400⟩
        ⟨1, 5, 0, 0, 0, 0, 2, 9⟩).1.tipHash = 5 ∧
    (insertHeader (fun b => b)
        ⟨[(5, ⟨⟨1, 0, 0, 0, 2, 0, 1, 5⟩, 3, true⟩)], [(1, 5)], 5, 400⟩
        ⟨1, 5, 0, 0, 0, 0, 2, 9⟩).2.isActiveTip = false := by
  have h := insertHeader_equalWork_keepsTip (fun b => b)
    ⟨[(5, ⟨⟨1, 0, 0, 0, 2, 0, 1, 5⟩, 3, true⟩)], [(1, 5)], 5, 400⟩
    ⟨1, 5, 0, 0, 0, 0, 2, 9⟩
    ⟨⟨1, 0, 0, 0, 2, 0, 1, 5⟩, 3, true⟩ ⟨⟨1, 0, 0, 0, 2, 0, 1, 5⟩, 3, true⟩
    (by decide) (by decide) (by decide) (by decide) (by decide)
  exact ⟨h.2.1, h.2.2.1⟩

/-- C5: when the insertHeader outcome of a popped header is `noPrev`, the
main loop leaves the store untouched and, while the recursion depth is
below `addLiveRecursionLimit`, fetches the missing parent and queues it in
front of the re-queued original header; if the parent cannot be fetched or
the bound is hit, the header is dropped, again with the store unchanged,
and no subscriber is notified. -/
theorem mainLoop_noPrev_bounded_recursion (blockWork : Nat → Nat) (s : ChainStore)
    (hdr : BlockHeader) (rest : List BlockHeader) (recursions limit : Nat)
    (fetch : Nat → Option BlockHeader)
    (hnp : (insertHeader blockWork s hdr).2.noPrev = true) :
    (mainThreadStep blockWork s hdr rest recursions limit fetch).store = s ∧
    (∀ p, recursions < limit → fetch hdr.previousHash = some p →
      mainThreadStep blockWork s hdr rest recursions limit fetch =
        ⟨s, p :: hdr :: rest, recursions + 1, false, false, false⟩) ∧
    (recursions < limit → fetch hdr.previousHash = none →
      mainThreadStep blockWork s hdr rest recursions limit fetch =
        ⟨s, rest, recursions, true, false, false⟩) ∧
    (¬ recursions < limit →
      mainThreadStep blockWork s hdr rest recursions limit fetch =
        ⟨s, rest, recursions, true, false, false⟩) := by
  have hmut := insertHeader_noPrev_noMutation blockWork s hdr hnp
  refine ⟨?_, ?_, ?_, ?_⟩
  · by_cases hrec : recursions < limit
    · cases hf : fetch hdr.previousHash <;> simp [mainThreadStep, hmut, hrec, hf]
    · simp [mainThreadStep, hmut, hrec]
  · intro p hrec hf
    simp [mainThreadStep, hmut, hrec, hf]
  · intro hrec hf
    simp [mainThreadStep, hmut, hrec, hf]
  · intro hrec
    simp [mainThreadStep, hmut, hrec]

theorem mainLoop_noPrev_bounded_recursion_witness :
    mainThreadStep (fun b => b) ⟨[], [], 0, 400⟩ ⟨1, 7, 0, 0, 1, 0, 2, 9⟩ []
        0 36 (fun _ => some ⟨1, 0, 0, 0, 1, 0, 1, 7⟩) =
      ⟨⟨[], [], 0, 400⟩, [⟨1, 0, 0, 0, 1, 0, 1, 7⟩, ⟨1, 7, 0, 0, 1, 0, 2, 9⟩], 1,
        false, false, false⟩ :=
  (mainLoop_noPrev_bounded_recursion (fun b => b) ⟨[], [], 0, 400⟩
      ⟨1, 7, 0, 0, 1, 0, 2, 9⟩ [] 0 36 (fun _ => some ⟨1, 0, 0, 0, 1, 0, 1, 7⟩)
      (by decide)).2.1 ⟨1, 0, 0, 0, 1, 0, 1, 7⟩ (by decide) rfl

/-- C10: the `exportBulkHeaders` closure returns without exporting when the
CDN is disabled or an export is already in progress; otherwise it attempts
an export exactly when `lastExportedHeight` is 0 or a 100k-height milestone
was crossed, records `lastExportedHeight := currentHeight` only on a
successful export, and clears the `isExporting` flag on every exit of its
try block, errors included. -/
theorem exportBulkHeaders_correct (enable : Bool) (st : ExportState)
    (ch : Nat) (ok : Bool) :
    ((enable = false ∨ st.isExporting = true) →
      (exportBulkHeaders enable st ch ok).1 = st ∧
      (exportBulkHeaders enable st ch ok).2 ≠ .exported ∧
      (exportBulkHeaders enable st ch ok).2 ≠ .exportFailed) ∧
    (enable = true → st.isExporting = false →
      (((exportBulkHeaders enable st ch ok).2 = .exported ∨
          (exportBulkHeaders enable st ch ok).2 = .exportFailed) ↔
        (st.lastExportedHeight = 0 ∨ st.lastExportedHeight / 100000 < ch / 100000)) ∧
      (exportBulkHeaders enable st ch ok).1.isExporting = false ∧
      ((exportBulkHeaders enable st ch ok).1.lastExportedHeight ≠ st.lastExportedHeight →
        (exportBulkHeaders enable st ch ok).2 = .exported) ∧
      ((exportBulkHeaders enable st ch ok).2 = .exported →
        (exportBulkHeaders enable st ch ok).1.lastExportedHeight = ch)) := by
  constructor
  · rintro (he | hb)
    · subst he; simp [exportBulkHeaders]
    · cases enable <;> simp [exportBulkHeaders, hb]
  · intro he hb
    subst he
    by_cases hz : st.lastExportedHeight = 0
    · cases ok <;> simp [exportBulkHeaders, hb, hz]
    · by_cases hm : st.lastExportedHeight / 100000 < ch / 100000
      · cases ok <;> simp [exportBulkHeaders, hb, hz, hm]
      · simp [exportBulkHeaders, hb, hz, hm]

theorem exportBulkHeaders_correct_witness :
    (exportBulkHeaders true ⟨0, false⟩ 150000 true).1.isExporting = false ∧
    ((exportBulkHeaders true ⟨0, false⟩ 150000 true).2 = .exported →
      (exportBulkHeaders true ⟨0, false⟩ 150000 true).1.lastExportedHeight = 150000) := by
  have h := (exportBulkHeaders_correct true ⟨0, false⟩ 150000 true).2 rfl rfl
  exact ⟨h.2.1, h.2.2.2⟩

theorem toBytesLE_length (w : Nat) : ∀ v : Nat, (toBytesLE w v).length = w := by
  induction w with
  | zero => intro v; simp [toBytesLE]
  | succ w ih => intro v; simp [toBytesLE, ih]

theorem serializeBlockHeader_length (h : BlockHeader) :
    (serializeBlockHeader h).length = 80 := by
  simp [serializeBlockHeader, toBytesLE_length]

theorem getHeaders_all_present (s : ChainStore) :
    ∀ (count height : Nat) (hs : Nat → BlockHeader),
      (∀ i, i < count → findHeaderForHeight s (height + i) = some (hs i)) →
      getHeaders s height count =
        some ((List.range count).flatMap (fun i => serializeBlockHeader (hs i))) := by
  intro count
  induction count with
  | zero => intro height hs _; simp [getHeaders]
  | succ c ih =>
    intro height hs hall
    have h0 : findHeaderForHeight s height = some (hs 0) := by
      have := hall 0 (Nat.succ_pos c)
      simpa using this
    have hrest : ∀ i, i < c → findHeaderForHeight s (height + 1 + i) = some (hs (i + 1)) := by
      intro i hi
      have := hall (i + 1) (Nat.succ_lt_succ hi)
      rw [← this]
      congr 1
      omega
    have := ih (height + 1) (fun i => hs (i + 1)) hrest
    simp [getHeaders, h0, this, List.range_succ_eq_map, List.flatMap_cons, Function.comp,
      List.flatMap_map]

theorem getHeaders_missing (s : ChainStore) :
    ∀ (count height : Nat),
      (∃ i, i < count ∧ findHeaderForHeight s (height + i) = none) →
      getHeaders s height count = none := by
  intro count
  induction count with
  | zero => rintro height ⟨i, hi, _⟩; omega
  | succ c ih =>
    rintro height ⟨i, hi, hnone⟩
    cases i with
    | zero =>
      simp at hnone
      simp [getHeaders, hnone]
    | succ j =>
      have : findHeaderForHeight s (height + 1 + j) = none := by
        rw [← hnone]; congr 1; omega
      have hrec := ih (height + 1) ⟨j, by omega, this⟩
      cases h0 : findHeaderForHeight s height with
      | none => simp [getHeaders, h0]
      | some hdr => simp [getHeaders, h0, hrec]

theorem flatMap_serialize_length (hs : Nat → BlockHeader) :
    ∀ count : Nat,
      ((List.range count).flatMap (fun i => serializeBlockHeader (hs i))).length =
        count * 80 := by
  intro count
  induction count with
  | zero => simp
  | succ c ih =>
    rw [List.range_succ, List.flatMap_append]
    simp [serializeBlockHeader_length, ih, Nat.succ_mul]

/-- C6: when all heights `height .. height+count-1` are on the active chain,
`getHeaders` returns exactly the concatenation of their 80-byte serialized
wire forms, `count * 80` bytes in total; when any requested height is
missing, the whole query fails instead of returning a partial result. -/
theorem getHeaders_range_query (s : ChainStore) (count height : Nat)
    (hs : Nat → BlockHeader) :
    ((∀ i, i < count → findHeaderForHeight s (height + i) = some (hs i)) →
      getHeaders s height count =
        some ((List.range count).flatMap (fun i => serializeBlockHeader (hs i))) ∧
      ∀ bs, getHeaders s height count = some bs → bs.length = count * 80) ∧
    ((∃ i, i < count ∧ findHeaderForHeight s (height + i) = none) →
      getHeaders s height count = none) := by
  refine ⟨?_, getHeaders_missing s count height⟩
  intro hall
  have hmain := getHeaders_all_present s count height hs hall
  refine ⟨hmain, ?_⟩
  intro bs hbs
  rw [hmain] at hbs
  cases hbs
  exact flatMap_serialize_length hs count

theorem getHeaders_range_query_witness :
    getHeaders ⟨[(5, ⟨⟨1, 0, 0, 0, 2, 0, 1, 5⟩, 3, true⟩)], [(1, 5)], 5, 400⟩ 1 1 =
      some (serializeBlockHeader ⟨1, 0, 0, 0, 2, 0, 1, 5⟩) ∧
    getHeaders ⟨[(5, ⟨⟨1, 0, 0, 0, 2, 0, 1, 5⟩, 3, true⟩)], [(1, 5)], 5, 400⟩ 1 2 =
      none := by
  constructor
  · have h := ((getHeaders_range_query
      ⟨[(5, ⟨⟨1, 0, 0, 0, 2, 0, 1, 5⟩, 3, true⟩)], [(1, 5)], 5, 400⟩ 1 1
      (fun _ => ⟨1, 0, 0, 0, 2, 0, 1, 5⟩)).1 (by decide)).1
    simpa using h
  · exact (getHeaders_range_query
      ⟨[(5, ⟨⟨1, 0, 0, 0, 2, 0, 1, 5⟩, 3, true⟩)], [(1, 5)], 5, 400⟩ 2 1
      (fun _ => ⟨1, 0, 0, 0, 2, 0, 1, 5⟩)).2 ⟨1, by decide, by decide⟩

/-- C9: migrating a header from the live tier to the bulk tier and then
querying the bulk tier by its height returns bytes identical to the
header's 80-byte serialized form before migration; the entry leaves the
live map. -/
theorem bulk_migration_roundtrip (s : ChainStore) (b : BulkStorage) (h : Nat)
    (e : LiveBlockHeader)
    (he : alookup s.liveHeaders h = some e)
    (hfile : ((alookup b.files (e.header.height / b.maxPerFile)).getD []).length =
      e.header.height % b.maxPerFile * 80) :
    getBulkHeaderBytes (migrateOneToBulk s b h).2 e.header.height =
      some (serializeBlockHeader e.header) ∧
    alookup (migrateOneToBulk s b h).1.liveHeaders h = none := by
  have hmig : (migrateOneToBulk s b h).2 = appendBulkHeader b e.header := by
    simp [migrateOneToBulk, he]
  constructor
  · rw [hmig]
    have hlookup : alookup (appendBulkHeader b e.header).files
        (e.header.height / b.maxPerFile) =
        some (((alookup b.files (e.header.height / b.maxPerFile)).getD []) ++
          serializeBlockHeader e.header) := by
      simp [appendBulkHeader, alookup_aset]
    have hmax : (appendBulkHeader b e.header).maxPerFile = b.maxPerFile := rfl
    unfold getBulkHeaderBytes
    rw [hmax, hlookup]
    dsimp only
    have hcond : e.header.height % b.maxPerFile * 80 + 80 ≤
        (((alookup b.files (e.header.height / b.maxPerFile)).getD []) ++
          serializeBlockHeader e.header).length := by
      simp [hfile, serializeBlockHeader_length]
    rw [if_pos hcond]
    have hdrop : (((alookup b.files (e.header.height / b.maxPerFile)).getD []) ++
        serializeBlockHeader e.header).drop (e.header.height % b.maxPerFile * 80) =
        serializeBlockHeader e.header := by
      rw [← hfile]
      exact List.drop_left _ _
    rw [hdrop, List.take_of_length_le (by simp [serializeBlockHeader_length])]
  · simp [migrateOneToBulk, he, alookup_adel]

theorem liveContent_deactivateHashes :
    ∀ (hs : List Nat) (s : ChainStore) (k : Nat),
      liveContent (deactivateHashes s hs) k = liveContent s k := by
  intro hs
  induction hs with
  | nil => intro s k; simp [deactivateHashes]
  | cons h rest ih =>
    intro s k
    cases he : alookup s.liveHeaders h with
    | none => simp [deactivateHashes, he, ih]
    | some e =>
      have hstep : deactivateHashes s (h :: rest) =
          deactivateHashes
            { s with
              activeByHeight := adel s.activeByHeight e.header.height,
              liveHeaders := aset s.liveHeaders h { e with isActive := false } } rest := by
        simp [deactivateHashes, he]
      rw [hstep, ih]
      simp only [liveContent, alookup_aset]
      by_cases hk : k = h
      · subst hk; simp [he]
      · simp [hk]

theorem liveContent_activateHashes :
    ∀ (hs : List Nat) (s : ChainStore) (k : Nat),
      liveContent (activateHashes s hs) k = liveContent s k := by
  intro hs
  induction hs with
  | nil => intro s k; simp [activateHashes]
  | cons h rest ih =>
    intro s k
    cases he : alookup s.liveHeaders h with
    | none => simp [activateHashes, he, ih]
    | some e =>
      have hstep : activateHashes s (h :: rest) =
          activateHashes
            { s with
              activeByHeight := aset s.activeByHeight e.header.height h,
              liveHeaders := aset s.liveHeaders h { e with isActive := true } } rest := by
        simp [activateHashes, he]
      rw [hstep, ih]
      simp only [liveContent, alookup_aset]
      by_cases hk : k = h
      · subst hk; simp [he]
      · simp [hk]

theorem handleReorg_liveContent (s : ChainStore) (nt ot : Nat) (s2 : ChainStore)
    (d : Nat) (ds : List BlockHeader)
    (h : handleReorg s nt ot = some (s2, d, ds)) (k : Nat) :
    liveContent s2 k = liveContent s k := by
  cases hne : alookup s.liveHeaders nt with
  | none => simp [handleReorg, hne] at h
  | some ne =>
    cases hoe : alookup s.liveHeaders ot with
    | none => simp [handleReorg, hne, hoe] at h
    | some oe =>
      cases hw : walkBack s (ne.header.height + oe.header.height + 1) nt ot with
      | none => simp [handleReorg, hne, hoe, hw] at h
      | some r =>
        obtain ⟨nc, oc, anc⟩ := r
        by_cases hd : oc.length ≤ s.reorgHeightThreshold
        · simp only [handleReorg, hne, hoe, hw, if_pos hd, Option.some_inj,
            Prod.mk.injEq] at h
          obtain ⟨h1, _h2, _h3⟩ := h
          rw [← h1]
          show liveContent (activateHashes (deactivateHashes s oc) nc) k = liveContent s k
          rw [liveContent_activateHashes, liveContent_deactivateHashes]
        · simp [handleReorg, hne, hoe, hw, hd] at h

theorem ChainAbove_mem_isSome (s : ChainStore) (anc ancH : Nat) :
    ∀ (hs : List Nat), ChainAbove s anc ancH hs →
      ∀ x ∈ hs, (alookup s.liveHeaders x).isSome = true := by
  intro hs
  induction hs with
  | nil => intro _ x hx; cases hx
  | cons h rest ih =>
    intro hc x hx
    obtain ⟨⟨e, he, _, _⟩, hrest⟩ := hc
    cases hx with
    | head => simp [he]
    | tail _ hx => exact ih hrest x hx

theorem ChainAbove_of_liveContent (s s' : ChainStore) (anc ancH : Nat)
    (hc : ∀ k, liveContent s' k = liveContent s k) :
    ∀ (hs : List Nat), ChainAbove s anc ancH hs → ChainAbove s' anc ancH hs := by
  intro hs
  induction hs with
  | nil => intro _; trivial
  | cons h rest ih =>
    intro hca
    obtain ⟨⟨e, he, hH, hP⟩, hrest⟩ := hca
    refine ⟨?_, ih hrest⟩
    have h1 : liveContent s' h = some (e.header, e.chainWork) := by
      rw [hc]; simp [liveContent, he]
    simp only [liveContent, Option.map_eq_some', Prod.mk.injEq] at h1
    obtain ⟨e', he', hee⟩ := h1
    exact ⟨e', he', by rw [hee.1]; exact hH, by rw [hee.1]; exact hP⟩

theorem ChainAbove_addLiveEntry (s : ChainStore) (cand : BlockHeader) (cw : Nat)
    (anc ancH : Nat) (hfr : alookup s.liveHeaders cand.hash = none) :
    ∀ (hs : List Nat), ChainAbove s anc ancH hs →
      ChainAbove (addLiveEntry s cand cw) anc ancH hs := by
  intro hs
  induction hs with
  | nil => intro _; trivial
  | cons h rest ih =>
    intro hca
    obtain ⟨⟨e, he, hH, hP⟩, hrest⟩ := hca
    refine ⟨⟨e, ?_, hH, hP⟩, ih hrest⟩
    have hne : h ≠ cand.hash := by
      intro hE; rw [hE, hfr] at he; cases he
    simp [addLiveEntry, alookup_aset, hne, he]

theorem walkBack_spec (s : ChainStore) (anc ancH : Nat) (ae : LiveBlockHeader)
    (hae : alookup s.liveHeaders anc = some ae) (haeH : ae.header.height = ancH) :
    ∀ (fuel : Nat) (newHs oldHs : List Nat),
      ChainAbove s anc ancH newHs → ChainAbove s anc ancH oldHs →
      (∀ x ∈ newHs, x ∉ oldHs) → anc ∉ newHs → anc ∉ oldHs →
      newHs.length + oldHs.length ≤ fuel →
      walkBack s fuel (newHs.headD anc) (oldHs.headD anc) = some (newHs, oldHs, anc) := by
  intro fuel
  induction fuel with
  | zero =>
    intro newHs oldHs _ _ _ _ _ hlen
    cases newHs with
    | cons nh ns => simp only [List.length_cons] at hlen; omega
    | nil =>
      cases oldHs with
      | cons oh os => simp only [List.length_cons] at hlen; omega
      | nil => simp [walkBack]
  | succ fuel ih =>
    intro newHs oldHs hn ho hdisj hanN hanO hlen
    cases newHs with
    | nil =>
      cases oldHs with
      | nil => simp [walkBack]
      | cons oh os =>
        obtain ⟨⟨oe, hoe, hoeH, hoeP⟩, horest⟩ := ho
        have hne : anc ≠ oh := by
          intro hE
          apply hanO
          rw [hE]
          exact List.mem_cons_self _ _
        have c1 : ¬ oe.header.height < ae.header.height := by rw [haeH, hoeH]; omega
        have c2 : ae.header.height < oe.header.height := by rw [haeH, hoeH]; omega
        have hih := ih [] os trivial horest (by intro x hx; cases hx)
          (fun hx => by cases hx) (fun hx => hanO (List.mem_cons_of_mem _ hx))
          (by
            simp only [List.length_nil, List.length_cons] at hlen ⊢
            omega)
        simp only [List.headD_nil] at hih
        show walkBack s (fuel + 1) anc oh = some ([], oh :: os, anc)
        rw [walkBack, if_neg hne, hae, hoe]
        dsimp only
        rw [if_neg c1, if_pos c2, hoeP, hih]
        rfl
    | cons nh ns =>
      obtain ⟨⟨ne, hnel, hneH, hneP⟩, hnrest⟩ := hn
      cases oldHs with
      | nil =>
        have hnanc : nh ≠ anc := by
          intro hE
          apply hanN
          rw [← hE]
          exact List.mem_cons_self _ _
        have c1 : ae.header.height < ne.header.height := by rw [haeH, hneH]; omega
        have hih := ih ns [] hnrest trivial (by intro x _ hx2; cases hx2)
          (fun hx => hanN (List.mem_cons_of_mem _ hx)) (fun hx => by cases hx)
          (by
            simp only [List.length_nil, List.length_cons] at hlen ⊢
            omega)
        simp only [List.headD_nil] at hih
        show walkBack s (fuel + 1) nh anc = some (nh :: ns, [], anc)
        rw [walkBack, if_neg hnanc, hnel, hae]
        dsimp only
        rw [if_pos c1, hneP, hih]
        rfl
      | cons oh os =>
        obtain ⟨⟨oe, hoe, hoeH, hoeP⟩, horest⟩ := ho
        have hnoh : nh ≠ oh := by
          intro hE
          apply hdisj nh (List.mem_cons_self _ _)
          rw [hE]
          exact List.mem_cons_self _ _
        show walkBack s (fuel + 1) nh oh = some (nh :: ns, oh :: os, anc)
        rw [walkBack, if_neg hnoh, hnel, hoe]
        dsimp only
        rcases Nat.lt_trichotomy ns.length os.length with hlt | heq | hgt
        · have c1 : ¬ oe.header.height < ne.header.height := by rw [hneH, hoeH]; omega
          have c2 : ne.header.height < oe.header.height := by rw [hneH, hoeH]; omega
          rw [if_neg c1, if_pos c2, hoeP]
          have hih := ih (nh :: ns) os ⟨⟨ne, hnel, hneH, hneP⟩, hnrest⟩ horest
            (fun x hx hx2 => hdisj x hx (List.mem_cons_of_mem _ hx2)) hanN
            (fun hx => hanO (List.mem_cons_of_mem _ hx))
            (by
              simp only [List.length_cons] at hlen ⊢
              omega)
          simp only [List.headD_cons] at hih
          rw [hih]
          rfl
        · have c1 : ¬ oe.header.height < ne.header.height := by rw [hneH, hoeH]; omega
          have c2 : ¬ ne.header.height < oe.header.height := by rw [hneH, hoeH]; omega
          rw [if_neg c1, if_neg c2, hneP, hoeP]
          have hih := ih ns os hnrest horest
            (fun x hx hx2 => hdisj x (List.mem_cons_of_mem _ hx) (List.mem_cons_of_mem _ hx2))
            (fun hx => hanN (List.mem_cons_of_mem _ hx))
            (fun hx => hanO (List.mem_cons_of_mem _ hx))
            (by
              simp only [List.length_cons] at hlen ⊢
              omega)
          rw [hih]
          rfl
        · have c1 : oe.header.height < ne.header.height := by rw [hneH, hoeH]; omega
          rw [if_pos c1, hneP]
          have hih := ih ns (oh :: os) hnrest ⟨⟨oe, hoe, hoeH, hoeP⟩, horest⟩
            (fun x hx => hdisj x (List.mem_cons_of_mem _ hx))
            (fun hx => hanN (List.mem_cons_of_mem _ hx)) hanO
            (by
              simp only [List.length_cons] at hlen ⊢
              omega)
          simp only [List.headD_cons] at hih
          rw [hih]
          rfl

theorem deactivate_activeByHeight (anc ancH : Nat) :
    ∀ (hs : List Nat) (s0 : ChainStore), ChainAbove s0 anc ancH hs →
      ∀ k, alookup (deactivateHashes s0 hs).activeByHeight k =
        if ancH < k ∧ k ≤ ancH + hs.length then none
        else alookup s0.activeByHeight k := by
  intro hs
  induction hs with
  | nil =>
    intro s0 _ k
    rw [if_neg (by rintro ⟨h1, h2⟩; simp at h2; omega)]
    simp [deactivateHashes]
  | cons h rest ih =>
    intro s0 hca k
    obtain ⟨⟨e, he, hH, hP⟩, hrest⟩ := hca
    have hstep : deactivateHashes s0 (h :: rest) =
        deactivateHashes
          { s0 with
            activeByHeight := adel s0.activeByHeight e.header.height,
            liveHeaders := aset s0.liveHeaders h { e with isActive := false } } rest := by
      simp [deactivateHashes, he]
    have hcontent : ∀ k', liveContent
        { s0 with
          activeByHeight := adel s0.activeByHeight e.header.height,
          liveHeaders := aset s0.liveHeaders h { e with isActive := false } } k' =
        liveContent s0 k' := by
      intro k'
      simp only [liveContent, alookup_aset]
      by_cases hk : k' = h
      · subst hk; simp [he]
      · simp [hk]
    have hCA := ChainAbove_of_liveContent s0 _ anc ancH hcontent rest hrest
    rw [hstep, ih _ hCA k]
    simp only [List.length_cons]
    by_cases h1 : ancH < k ∧ k ≤ ancH + rest.length
    · rw [if_pos h1, if_pos ⟨h1.1, by omega⟩]
    · rw [if_neg h1]
      show alookup (adel s0.activeByHeight e.header.height) k = _
      rw [alookup_adel, hH]
      by_cases h2 : k = ancH + rest.length + 1
      · rw [if_pos h2, if_pos ⟨by omega, by omega⟩]
      · rw [if_neg h2, if_neg (by rintro ⟨ha, hb⟩; exact h1 ⟨ha, by omega⟩)]

theorem activate_activeByHeight (anc ancH : Nat) :
    ∀ (hs : List Nat) (s0 : ChainStore), ChainAbove s0 anc ancH hs →
      ∀ k, alookup (activateHashes s0 hs).activeByHeight k =
        if ancH < k ∧ k ≤ ancH + hs.length then hs[ancH + hs.length - k]?
        else alookup s0.activeByHeight k := by
  intro hs
  induction hs with
  | nil =>
    intro s0 _ k
    rw [if_neg (by rintro ⟨h1, h2⟩; simp at h2; omega)]
    simp [activateHashes]
  | cons h rest ih =>
    intro s0 hca k
    obtain ⟨⟨e, he, hH, hP⟩, hrest⟩ := hca
    have hstep : activateHashes s0 (h :: rest) =
        activateHashes
          { s0 with
            activeByHeight := aset s0.activeByHeight e.header.height h,
            liveHeaders := aset s0.liveHeaders h { e with isActive := true } } rest := by
      simp [activateHashes, he]
    have hcontent : ∀ k', liveContent
        { s0 with
          activeByHeight := aset s0.activeByHeight e.header.height h,
          liveHeaders := aset s0.liveHeaders h { e with isActive := true } } k' =
        liveContent s0 k' := by
      intro k'
      simp only [liveContent, alookup_aset]
      by_cases hk : k' = h
      · subst hk; simp [he]
      · simp [hk]
    have hCA := ChainAbove_of_liveContent s0 _ anc ancH hcontent rest hrest
    rw [hstep, ih _ hCA k]
    simp only [List.length_cons]
    by_cases h1 : ancH < k ∧ k ≤ ancH + rest.length
    · rw [if_pos h1, if_pos ⟨h1.1, by omega⟩]
      have hidx : ancH + (rest.length + 1) - k = (ancH + rest.length - k) + 1 := by omega
      rw [hidx, List.getElem?_cons_succ]
    · rw [if_neg h1]
      show alookup (aset s0.activeByHeight e.header.height h) k = _
      rw [alookup_aset, hH]
      by_cases h2 : k = ancH + rest.length + 1
      · rw [if_pos h2, if_pos ⟨by omega, by omega⟩]
        have hidx : ancH + (rest.length + 1) - k = 0 := by omega
        rw [hidx, List.getElem?_cons_zero]
      · rw [if_neg h2, if_neg (by rintro ⟨ha, hb⟩; exact h1 ⟨ha, by omega⟩)]

theorem headersOf_getElem (s : ChainStore) (anc ancH : Nat) :
    ∀ (hs : List Nat), ChainAbove s anc ancH hs → ∀ i : Nat,
      (headersOf s hs)[i]? =
        hs[i]?.bind (fun x => (alookup s.liveHeaders x).map (fun e => e.header)) := by
  intro hs
  induction hs with
  | nil => intro _ i; simp [headersOf]
  | cons h rest ih =>
    intro hca i
    obtain ⟨⟨e, he, _, _⟩, hrest⟩ := hca
    have hcons : headersOf s (h :: rest) = e.header :: headersOf s rest := by
      simp [headersOf, List.filterMap_cons, he]
    rw [hcons]
    cases i with
    | zero => simp [he]
    | succ j => simp [ih hrest j]

theorem headersOf_length (s : ChainStore) (anc ancH : Nat) :
    ∀ (hs : List Nat), ChainAbove s anc ancH hs →
      (headersOf s hs).length = hs.length := by
  intro hs
  induction hs with
  | nil => intro _; simp [headersOf]
  | cons h rest ih =>
    intro hca
    obtain ⟨⟨e, he, _, _⟩, hrest⟩ := hca
    have hcons : headersOf s (h :: rest) = e.header :: headersOf s rest := by
      simp [headersOf, List.filterMap_cons, he]
    rw [hcons]
    simp [ih hrest]

theorem headersOf_addLiveEntry (s : ChainStore) (cand : BlockHeader) (cw : Nat) :
    ∀ hs : List Nat, cand.hash ∉ hs →
      headersOf (addLiveEntry s cand cw) hs = headersOf s hs := by
  intro hs
  induction hs with
  | nil => intro _; simp [headersOf]
  | cons h rest ih =>
    intro hnm
    have hne : h ≠ cand.hash := by
      intro hE; apply hnm; rw [hE]; exact List.mem_cons_self _ _
    have htail : cand.hash ∉ rest := fun hx => hnm (List.mem_cons_of_mem _ hx)
    simp only [headersOf, List.filterMap_cons] at ih ⊢
    rw [show alookup (addLiveEntry s cand cw).liveHeaders h = alookup s.liveHeaders h from by
      simp [addLiveEntry, alookup_aset, hne]]
    cases alookup s.liveHeaders h <;> simp [ih htail]

theorem chain_headD_lookup (s : ChainStore) (anc ancH : Nat) (ae : LiveBlockHeader)
    (hae : alookup s.liveHeaders anc = some ae) (haeH : ae.header.height = ancH)
    (hs : List Nat) (hc : ChainAbove s anc ancH hs) :
    ∃ e, alookup s.liveHeaders (hs.headD anc) = some e ∧
      e.header.height = ancH + hs.length := by
  cases hs with
  | nil => exact ⟨ae, by simpa using hae, by simpa using haeH⟩
  | cons h rest =>
    obtain ⟨⟨e, he, hH, _⟩, _⟩ := hc
    refine ⟨e, by simpa using he, ?_⟩
    rw [hH, List.length_cons]
    omega

theorem headerMap_of_liveContent (s s' : ChainStore) (x : Nat)
    (hc : liveContent s' x = liveContent s x) :
    (alookup s'.liveHeaders x).map (fun e => e.header) =
      (alookup s.liveHeaders x).map (fun e => e.header) := by
  have h := congrArg (Option.map Prod.fst) hc
  simpa [liveContent, Option.map_map, Function.comp] using h

theorem workInvariant_of_liveContent (blockWork : Nat → Nat) (s s' : ChainStore)
    (hc : ∀ k, liveContent s' k = liveContent s k)
    (hw : WorkInvariant blockWork s) : WorkInvariant blockWork s' := by
  intro h e he p hp
  have h1 : liveContent s h = some (e.header, e.chainWork) := by
    rw [← hc]; simp [liveContent, he]
  have h2 : liveContent s e.header.previousHash = some (p.header, p.chainWork) := by
    rw [← hc]; simp [liveContent, hp]
  simp only [liveContent, Option.map_eq_some', Prod.mk.injEq] at h1 h2
  obtain ⟨e0, he0, hee⟩ := h1
  obtain ⟨p0, hp0, hpp⟩ := h2
  have hw0 := hw h e0 he0 p0 (by rw [hee.1]; exact hp0)
  rw [← hee.1, ← hee.2, ← hpp.1, ← hpp.2]
  exact hw0

theorem workInvariant_mono (blockWork : Nat → Nat) (s : ChainStore)
    (hw : WorkInvariant blockWork s) :
    ∀ h e, alookup s.liveHeaders h = some e →
      ∀ p, alookup s.liveHeaders e.header.previousHash = some p →
        p.chainWork ≤ e.chainWork := by
  intro h e he p hp
  have := (hw h e he p hp).2
  omega

theorem workInvariant_addLiveEntry (blockWork : Nat → Nat) (s : ChainStore)
    (cand : BlockHeader) (prev : LiveBlockHeader)
    (hWF : WorkInvariant blockWork s)
    (hfresh : ∀ h e, alookup s.liveHeaders h = some e → e.header.previousHash ≠ cand.hash)
    (hdup : alookup s.liveHeaders cand.hash = none)
    (hprev : alookup s.liveHeaders cand.previousHash = some prev)
    (hh : cand.height = prev.header.height + 1) :
    WorkInvariant blockWork
      (addLiveEntry s cand (prev.chainWork + blockWork cand.bits)) := by
  intro h e he p hp
  simp only [addLiveEntry, alookup_aset] at he hp
  by_cases hk : h = cand.hash
  · rw [if_pos hk] at he
    cases he
    have hne : cand.previousHash ≠ cand.hash := by
      intro hE
      rw [hE, hdup] at hprev
      cases hprev
    rw [if_neg hne] at hp
    rw [hprev] at hp
    cases hp
    exact ⟨hh, rfl⟩
  · rw [if_neg hk] at he
    by_cases hpk : e.header.previousHash = cand.hash
    · exact absurd hpk (hfresh h e he)
    · rw [if_neg hpk] at hp
      exact hWF h e he p hp

/-- C3: every accepted header sits exactly one height above its parent and
carries `chainWork = parent.chainWork + work(header)`; the linkage invariant
is preserved by every insertHeader call (under hash freshness of the new
header), so cumulative chainWork is non-decreasing along every stored
chain. -/
theorem insertHeader_work_invariant (blockWork : Nat → Nat) (s : ChainStore)
    (cand : BlockHeader)
    (hWF : WorkInvariant blockWork s)
    (hfresh : ∀ h e, alookup s.liveHeaders h = some e → e.header.previousHash ≠ cand.hash) :
    WorkInvariant blockWork (insertHeader blockWork s cand).1 ∧
    ((insertHeader blockWork s cand).2.added = true →
      ∃ p, alookup s.liveHeaders cand.previousHash = some p ∧
        cand.height = p.header.height + 1 ∧
        ∃ e, alookup (insertHeader blockWork s cand).1.liveHeaders cand.hash = some e ∧
          e.header = cand ∧ e.chainWork = p.chainWork + blockWork cand.bits ∧
          p.chainWork ≤ e.chainWork) ∧
    (∀ h e, alookup (insertHeader blockWork s cand).1.liveHeaders h = some e →
      ∀ p, alookup (insertHeader blockWork s cand).1.liveHeaders e.header.previousHash = some p →
        p.chainWork ≤ e.chainWork) := by
  by_cases hdup : (alookup s.liveHeaders cand.hash).isSome
  · have hres : insertHeader blockWork s cand = (s, { dupe := true }) := by
      simp [insertHeader, hdup]
    rw [hres]
    exact ⟨hWF, by simp, workInvariant_mono blockWork s hWF⟩
  · have hdup' : alookup s.liveHeaders cand.hash = none := by
      cases hx : alookup s.liveHeaders cand.hash
      · rfl
      · rw [hx] at hdup; simp at hdup
    cases hprev : alookup s.liveHeaders cand.previousHash with
    | none =>
      have hres : insertHeader blockWork s cand = (s, { noPrev := true }) := by
        simp [insertHeader, hdup, hprev]
      rw [hres]
      exact ⟨hWF, by simp, workInvariant_mono blockWork s hWF⟩
    | some prev =>
      rw [← hprev]
      by_cases hh : cand.height = prev.header.height + 1
      · have hWF1 := workInvariant_addLiveEntry blockWork s cand prev hWF hfresh hdup' hprev hh
        have hentry : alookup
            (addLiveEntry s cand (prev.chainWork + blockWork cand.bits)).liveHeaders
            cand.hash = some ⟨cand, prev.chainWork + blockWork cand.bits, false⟩ := by
          simp [addLiveEntry, alookup_aset]
        have hside : ∀ r : InsertResult,
            insertHeader blockWork s cand =
              (addLiveEntry s cand (prev.chainWork + blockWork cand.bits), r) →
            WorkInvariant blockWork (insertHeader blockWork s cand).1 ∧
            ((insertHeader blockWork s cand).2.added = true →
              ∃ p, alookup s.liveHeaders cand.previousHash = some p ∧
                cand.height = p.header.height + 1 ∧
                ∃ e, alookup (insertHeader blockWork s cand).1.liveHeaders cand.hash = some e ∧
                  e.header = cand ∧ e.chainWork = p.chainWork + blockWork cand.bits ∧
                  p.chainWork ≤ e.chainWork) ∧
            (∀ h e, alookup (insertHeader blockWork s cand).1.liveHeaders h = some e →
              ∀ p, alookup (insertHeader blockWork s cand).1.liveHeaders
                  e.header.previousHash = some p →
                p.chainWork ≤ e.chainWork) := by
          intro r hres
          rw [hres]
          refine ⟨hWF1, ?_, workInvariant_mono blockWork _ hWF1⟩
          intro _
          exact ⟨prev, hprev, hh,
            ⟨cand, prev.chainWork + blockWork cand.bits, false⟩, hentry, rfl, rfl,
            Nat.le_add_right _ _⟩
        cases htip : alookup s.liveHeaders s.tipHash with
        | none =>
          have hres : insertHeader blockWork s cand =
              (addLiveEntry s cand (prev.chainWork + blockWork cand.bits),
                { added := true }) := by
            simp [insertHeader, hdup, hprev, hh, htip]
          exact hside { added := true } hres
        | some te =>
          by_cases hlt : te.chainWork < prev.chainWork + blockWork cand.bits
          · cases hr : handleReorg (addLiveEntry s cand (prev.chainWork + blockWork cand.bits))
                cand.hash s.tipHash with
            | none =>
              have hres : insertHeader blockWork s cand =
                  (addLiveEntry s cand (prev.chainWork + blockWork cand.bits),
                    { added := true, priorTip := some te.header }) := by
                simp [insertHeader, hdup, hprev, hh, htip, hlt, hr]
              exact hside { added := true, priorTip := some te.header } hres
            | some res =>
              obtain ⟨s2, depth, deacts⟩ := res
              have hres : insertHeader blockWork s cand =
                  (s2, { added := true, isActiveTip := true, reorgDepth := depth,
                         deactivatedHeaders := deacts, priorTip := some te.header }) := by
                simp [insertHeader, hdup, hprev, hh, htip, hlt, hr]
              have hc := handleReorg_liveContent _ _ _ _ _ _ hr
              have hWF2 := workInvariant_of_liveContent blockWork _ s2 hc hWF1
              rw [hres]
              refine ⟨hWF2, ?_, workInvariant_mono blockWork s2 hWF2⟩
              intro _
              refine ⟨prev, hprev, hh, ?_⟩
              have hc2 : liveContent s2 cand.hash =
                  some (cand, prev.chainWork + blockWork cand.bits) := by
                rw [hc]
                simp [liveContent, hentry]
              simp only [liveContent, Option.map_eq_some', Prod.mk.injEq] at hc2
              obtain ⟨e, he, hee⟩ := hc2
              exact ⟨e, he, hee.1, hee.2, hee.2 ▸ Nat.le_add_right _ _⟩
          · have hres : insertHeader blockWork s cand =
                (addLiveEntry s cand (prev.chainWork + blockWork cand.bits),
                  { added := true, priorTip := some te.header }) := by
              simp [insertHeader, hdup, hprev, hh, htip, hlt]
            exact hside { added := true, priorTip := some te.header } hres
      · have hres : insertHeader blockWork s cand = (s, {}) := by
          simp [insertHeader, hdup, hprev, hh]
        rw [hres]
        exact ⟨hWF, by simp, workInvariant_mono blockWork s hWF⟩

theorem insertHeader_work_invariant_witness :
    WorkInvariant (fun b => b)
      (insertHeader (fun b => b)
        ⟨[(5, ⟨⟨1, 0, 0, 0, 2, 0, 1, 5⟩, 3, true⟩)], [(1, 5)], 5, 400⟩
        ⟨1, 5, 0, 0, 4, 0, 2, 9⟩).1 := by
  have h := insertHeader_work_invariant (fun b => b)
    ⟨[(5, ⟨⟨1, 0, 0, 0, 2, 0, 1, 5⟩, 3, true⟩)], [(1, 5)], 5, 400⟩
    ⟨1, 5, 0, 0, 4, 0, 2, 9⟩
    (by
      intro h e he p hp
      by_cases hk : h = 5
      · subst hk
        simp [alookup] at he
        subst he
        simp [alookup] at hp
      · simp [alookup, hk] at he)
    (by
      intro h e he
      by_cases hk : h = 5
      · subst hk
        simp [alookup] at he
        subst he
        decide
      · simp [alookup, hk] at he)
  exact h.1

theorem bulk_migration_roundtrip_witness :
    getBulkHeaderBytes
        (migrateOneToBulk ⟨[(7, ⟨⟨1, 0, 0, 0, 2, 0, 0, 7⟩, 3, true⟩)], [(0, 7)], 7, 400⟩
          ⟨[], 100000⟩ 7).2 0 =
      some (serializeBlockHeader ⟨1, 0, 0, 0, 2, 0, 0, 7⟩) :=
  (bulk_migration_roundtrip ⟨[(7, ⟨⟨1, 0, 0, 0, 2, 0, 0, 7⟩, 3, true⟩)], [(0, 7)], 7, 400⟩
    ⟨[], 100000⟩ 7 ⟨⟨1, 0, 0, 0, 2, 0, 0, 7⟩, 3, true⟩ (by decide) (by decide)).1

/-- C1: inserting the tip of a competing chain B that shares a common
ancestor at depth `d = oldHs.length ≤ reorgHeightThreshold` with the active
chain A, with B's cumulative chainWork exceeding A's tip, performs a reorg:
the result reports `reorgDepth = d`, `deactivatedHeaders` is exactly A's
list of headers above the ancestor, and afterwards `findHeaderForHeight`
returns B's header for every height above the ancestor up to B's tip. -/
theorem insertHeader_reorg_correct (blockWork : Nat → Nat) (s : ChainStore)
    (cand : BlockHeader) (ancHash ancH : Nat) (ae pe te : LiveBlockHeader)
    (oldHs newHs : List Nat)
    (hae : alookup s.liveHeaders ancHash = some ae)
    (haeH : ae.header.height = ancH)
    (hold : ChainAbove s ancHash ancH oldHs)
    (hnew : ChainAbove s ancHash ancH newHs)
    (htipIs : s.tipHash = oldHs.headD ancHash)
    (hte : alookup s.liveHeaders s.tipHash = some te)
    (hcand : alookup s.liveHeaders cand.hash = none)
    (hpe : alookup s.liveHeaders cand.previousHash = some pe)
    (hplink : cand.previousHash = newHs.headD ancHash)
    (hheight : cand.height = ancH + newHs.length + 1)
    (hdisj : ∀ x ∈ newHs, x ∉ oldHs)
    (hancN : ancHash ∉ newHs)
    (hancO : ancHash ∉ oldHs)
    (hdepth : oldHs.length ≤ s.reorgHeightThreshold)
    (hwork : te.chainWork < pe.chainWork + blockWork cand.bits) :
    (insertHeader blockWork s cand).2.added = true ∧
    (insertHeader blockWork s cand).2.isActiveTip = true ∧
    (insertHeader blockWork s cand).2.reorgDepth = oldHs.length ∧
    (insertHeader blockWork s cand).2.deactivatedHeaders = headersOf s oldHs ∧
    (insertHeader blockWork s cand).1.tipHash = cand.hash ∧
    (∀ i, i ≤ newHs.length →
      findHeaderForHeight (insertHeader blockWork s cand).1 (cand.height - i) =
        (cand :: headersOf s newHs)[i]?) := by
  have hancne : ancHash ≠ cand.hash := by
    intro hE; rw [hE, hcand] at hae; cases hae
  have htipne : s.tipHash ≠ cand.hash := by
    intro hE; rw [hE, hcand] at hte; cases hte
  have hcandO : cand.hash ∉ oldHs := by
    intro hx
    have h := ChainAbove_mem_isSome s ancHash ancH oldHs hold cand.hash hx
    rw [hcand] at h
    simp at h
  have hcandN : cand.hash ∉ newHs := by
    intro hx
    have h := ChainAbove_mem_isSome s ancHash ancH newHs hnew cand.hash hx
    rw [hcand] at h
    simp at h
  have hpeH : pe.header.height = ancH + newHs.length := by
    obtain ⟨e, he, heH⟩ := chain_headD_lookup s ancHash ancH ae hae haeH newHs hnew
    have h2 : alookup s.liveHeaders (newHs.headD ancHash) = some pe := by
      rw [← hplink]; exact hpe
    rw [he] at h2
    cases h2
    exact heH
  have hvalid : cand.height = pe.header.height + 1 := by omega
  have hteH : te.header.height = ancH + oldHs.length := by
    obtain ⟨e, he, heH⟩ := chain_headD_lookup s ancHash ancH ae hae haeH oldHs hold
    have h2 : alookup s.liveHeaders (oldHs.headD ancHash) = some te := by
      rw [← htipIs]; exact hte
    rw [he] at h2
    cases h2
    exact heH
  have hlook1 : alookup
      (addLiveEntry s cand (pe.chainWork + blockWork cand.bits)).liveHeaders cand.hash =
      some ⟨cand, pe.chainWork + blockWork cand.bits, false⟩ := by
    simp [addLiveEntry, alookup_aset]
  have hlook2 : alookup
      (addLiveEntry s cand (pe.chainWork + blockWork cand.bits)).liveHeaders s.tipHash =
      some te := by
    simp [addLiveEntry, alookup_aset, htipne, hte]
  have hanc1 : alookup
      (addLiveEntry s cand (pe.chainWork + blockWork cand.bits)).liveHeaders ancHash =
      some ae := by
    simp [addLiveEntry, alookup_aset, hancne, hae]
  have hs1new : ChainAbove (addLiveEntry s cand (pe.chainWork + blockWork cand.bits))
      ancHash ancH (cand.hash :: newHs) := by
    refine ⟨⟨⟨cand, pe.chainWork + blockWork cand.bits, false⟩, hlook1, ?_, ?_⟩,
      ChainAbove_addLiveEntry s cand _ ancHash ancH hcand newHs hnew⟩
    · exact hheight
    · exact hplink
  have hs1old := ChainAbove_addLiveEntry s cand (pe.chainWork + blockWork cand.bits)
    ancHash ancH hcand oldHs hold
  have hdisj1 : ∀ x ∈ cand.hash :: newHs, x ∉ oldHs := by
    intro x hx
    rcases List.mem_cons.mp hx with rfl | hx2
    · exact hcandO
    · exact hdisj x hx2
  have hancN1 : ancHash ∉ cand.hash :: newHs := by
    intro hx
    rcases List.mem_cons.mp hx with hE | hx2
    · exact hancne hE
    · exact hancN hx2
  have hfuel : (cand.hash :: newHs).length + oldHs.length ≤
      cand.height + te.header.height + 1 := by
    simp only [List.length_cons]
    omega
  have hwalk := walkBack_spec (addLiveEntry s cand (pe.chainWork + blockWork cand.bits))
    ancHash ancH ae hanc1 haeH (cand.height + te.header.height + 1)
    (cand.hash :: newHs) oldHs hs1new hs1old hdisj1 hancN1 hancO hfuel
  simp only [List.headD_cons] at hwalk
  rw [← htipIs] at hwalk
  have hdepth1 : oldHs.length ≤
      (addLiveEntry s cand (pe.chainWork + blockWork cand.bits)).reorgHeightThreshold :=
    hdepth
  have hreorg : handleReorg (addLiveEntry s cand (pe.chainWork + blockWork cand.bits))
      cand.hash s.tipHash =
      some ({ activateHashes
          (deactivateHashes (addLiveEntry s cand (pe.chainWork + blockWork cand.bits)) oldHs)
          (cand.hash :: newHs) with tipHash := cand.hash },
        oldHs.length,
        headersOf (addLiveEntry s cand (pe.chainWork + blockWork cand.bits)) oldHs) := by
    simp only [handleReorg, hlook1, hlook2]
    rw [hwalk]
    dsimp only
    rw [if_pos hdepth1]
  have hres : insertHeader blockWork s cand =
      ({ activateHashes
          (deactivateHashes (addLiveEntry s cand (pe.chainWork + blockWork cand.bits)) oldHs)
          (cand.hash :: newHs) with tipHash := cand.hash },
        { added := true, isActiveTip := true, reorgDepth := oldHs.length,
          deactivatedHeaders :=
            headersOf (addLiveEntry s cand (pe.chainWork + blockWork cand.bits)) oldHs,
          priorTip := some te.header }) := by
    simp [insertHeader, hcand, hpe, hvalid, hte, hwork, hreorg]
  rw [hres]
  refine ⟨rfl, rfl, rfl, ?_, rfl, ?_⟩
  · exact headersOf_addLiveEntry s cand _ oldHs hcandO
  · intro i hi
    have hCAdnew : ChainAbove
        (deactivateHashes (addLiveEntry s cand (pe.chainWork + blockWork cand.bits)) oldHs)
        ancHash ancH (cand.hash :: newHs) :=
      ChainAbove_of_liveContent _ _ ancHash ancH
        (fun k => liveContent_deactivateHashes oldHs _ k) _ hs1new
    have hidx := activate_activeByHeight ancHash ancH (cand.hash :: newHs)
      (deactivateHashes (addLiveEntry s cand (pe.chainWork + blockWork cand.bits)) oldHs)
      hCAdnew (cand.height - i)
    simp only [List.length_cons] at hidx
    have hcond : ancH < cand.height - i ∧ cand.height - i ≤ ancH + (newHs.length + 1) := by
      omega
    rw [if_pos hcond] at hidx
    have hidxEq : ancH + (newHs.length + 1) - (cand.height - i) = i := by omega
    rw [hidxEq] at hidx
    have hmap : ∀ x,
        (alookup (activateHashes
          (deactivateHashes (addLiveEntry s cand (pe.chainWork + blockWork cand.bits)) oldHs)
          (cand.hash :: newHs)).liveHeaders x).map (fun e => e.header) =
        (alookup (addLiveEntry s cand
          (pe.chainWork + blockWork cand.bits)).liveHeaders x).map (fun e => e.header) := by
      intro x
      apply headerMap_of_liveContent
      rw [liveContent_activateHashes, liveContent_deactivateHashes]
    have hstep1 : findHeaderForHeight
        ({ activateHashes
            (deactivateHashes (addLiveEntry s cand (pe.chainWork + blockWork cand.bits)) oldHs)
            (cand.hash :: newHs) with tipHash := cand.hash }) (cand.height - i) =
        ((cand.hash :: newHs)[i]?).bind (fun x =>
          (alookup (addLiveEntry s cand
            (pe.chainWork + blockWork cand.bits)).liveHeaders x).map (fun e => e.header)) := by
      unfold findHeaderForHeight
      dsimp only
      rw [hidx]
      cases hc : (cand.hash :: newHs)[i]? with
      | none => rfl
      | some x =>
        dsimp only [Option.bind]
        exact hmap x
    rw [hstep1, ← headersOf_getElem _ ancHash ancH (cand.hash :: newHs) hs1new i]
    have hconsHeaders : headersOf
        (addLiveEntry s cand (pe.chainWork + blockWork cand.bits)) (cand.hash :: newHs) =
        cand :: headersOf (addLiveEntry s cand (pe.chainWork + blockWork cand.bits)) newHs := by
      simp [headersOf, List.filterMap_cons, hlook1]
    rw [hconsHeaders, headersOf_addLiveEntry s cand _ newHs hcandN]

theorem insertHeader_reorg_correct_witness :
    (insertHeader (fun b => b)
        ⟨[(10, ⟨⟨1, 0, 0, 0, 2, 0, 1, 10⟩, 10, true⟩),
          (21, ⟨⟨1, 10, 0, 0, 2, 0, 2, 21⟩, 11, true⟩),
          (22, ⟨⟨1, 21, 0, 0, 2, 0, 3, 22⟩, 12, true⟩),
          (31, ⟨⟨1, 10, 0, 0, 2, 0, 2, 31⟩, 11, false⟩),
          (32, ⟨⟨1, 31, 0, 0, 2, 0, 3, 32⟩, 12, false⟩)],
         [(1, 10), (2, 21), (3, 22)], 22, 400⟩
        ⟨1, 32, 0, 0, 1, 0, 4, 33⟩).2.reorgDepth = 2 ∧
    findHeaderForHeight
        (insertHeader (fun b => b)
          ⟨[(10, ⟨⟨1, 0, 0, 0, 2, 0, 1, 10⟩, 10, true⟩),
            (21, ⟨⟨1, 10, 0, 0, 2, 0, 2, 21⟩, 11, true⟩),
            (22, ⟨⟨1, 21, 0, 0, 2, 0, 3, 22⟩, 12, true⟩),
            (31, ⟨⟨1, 10, 0, 0, 2, 0, 2, 31⟩, 11, false⟩),
            (32, ⟨⟨1, 31, 0, 0, 2, 0, 3, 32⟩, 12, false⟩)],
           [(1, 10), (2, 21), (3, 22)], 22, 400⟩
          ⟨1, 32, 0, 0, 1, 0, 4, 33⟩).1 2 =
      some ⟨1, 10, 0, 0, 2, 0, 2, 31⟩ := by
  have h := insertHeader_reorg_correct (fun b => b)
    ⟨[(10, ⟨⟨1, 0, 0, 0, 2, 0, 1, 10⟩, 10, true⟩),
      (21, ⟨⟨1, 10, 0, 0, 2, 0, 2, 21⟩, 11, true⟩),
      (22, ⟨⟨1, 21, 0, 0, 2, 0, 3, 22⟩, 12, true⟩),
      (31, ⟨⟨1, 10, 0, 0, 2, 0, 2, 31⟩, 11, false⟩),
      (32, ⟨⟨1, 31, 0, 0, 2, 0, 3, 32⟩, 12, false⟩)],
     [(1, 10), (2, 21), (3, 22)], 22, 400⟩
    ⟨1, 32, 0, 0, 1, 0, 4, 33⟩ 10 1
    ⟨⟨1, 0, 0, 0, 2, 0, 1, 10⟩, 10, true⟩
    ⟨⟨1, 31, 0, 0, 2, 0, 3, 32⟩, 12, false⟩
    ⟨⟨1, 21, 0, 0, 2, 0, 3, 22⟩, 12, true⟩
    [22, 21] [32, 31]
    rfl rfl
    ⟨⟨⟨⟨1, 21, 0, 0, 2, 0, 3, 22⟩, 12, true⟩, rfl, rfl, rfl⟩,
      ⟨⟨⟨1, 10, 0, 0, 2, 0, 2, 21⟩, 11, true⟩, rfl, rfl, rfl⟩, trivial⟩
    ⟨⟨⟨⟨1, 31, 0, 0, 2, 0, 3, 32⟩, 12, false⟩, rfl, rfl, rfl⟩,
      ⟨⟨⟨1, 10, 0, 0, 2, 0, 2, 31⟩, 11, false⟩, rfl, rfl, rfl⟩, trivial⟩
    rfl rfl rfl rfl rfl rfl
    (by decide) (by decide) (by decide) (by decide) (by decide)
  refine ⟨h.2.2.1, ?_⟩
  have h4 := h.2.2.2.2.2 2 (by decide)
  exact h4

/-- C2: inserting the tip of a competing chain whose common ancestor lies
deeper than `reorgHeightThreshold` leaves the active tip and the
ActiveIndex unchanged regardless of the competing chain's chainWork; the
candidate is stored only as a never-activated (inactive) side-chain entry
and no other live entry changes. -/
theorem insertHeader_reorg_rejected (blockWork : Nat → Nat) (s : ChainStore)
    (cand : BlockHeader) (ancHash ancH : Nat) (ae pe te : LiveBlockHeader)
    (oldHs newHs : List Nat)
    (hae : alookup s.liveHeaders ancHash = some ae)
    (haeH : ae.header.height = ancH)
    (hold : ChainAbove s ancHash ancH oldHs)
    (hnew : ChainAbove s ancHash ancH newHs)
    (htipIs : s.tipHash = oldHs.headD ancHash)
    (hte : alookup s.liveHeaders s.tipHash = some te)
    (hcand : alookup s.liveHeaders cand.hash = none)
    (hpe : alookup s.liveHeaders cand.previousHash = some pe)
    (hplink : cand.previousHash = newHs.headD ancHash)
    (hheight : cand.height = ancH + newHs.length + 1)
    (hdisj : ∀ x ∈ newHs, x ∉ oldHs)
    (hancN : ancHash ∉ newHs)
    (hancO : ancHash ∉ oldHs)
    (hdeep : s.reorgHeightThreshold < oldHs.length) :
    (insertHeader blockWork s cand).1.tipHash = s.tipHash ∧
    (insertHeader blockWork s cand).1.activeByHeight = s.activeByHeight ∧
    (insertHeader blockWork s cand).2.isActiveTip = false ∧
    (insertHeader blockWork s cand).2.reorgDepth = 0 ∧
    (insertHeader blockWork s cand).2.added = true ∧
    alookup (insertHeader blockWork s cand).1.liveHeaders cand.hash =
      some ⟨cand, pe.chainWork + blockWork cand.bits, false⟩ ∧
    (∀ h, h ≠ cand.hash →
      alookup (insertHeader blockWork s cand).1.liveHeaders h =
        alookup s.liveHeaders h) := by
  have hancne : ancHash ≠ cand.hash := by
    intro hE; rw [hE, hcand] at hae; cases hae
  have htipne : s.tipHash ≠ cand.hash := by
    intro hE; rw [hE, hcand] at hte; cases hte
  have hcandO : cand.hash ∉ oldHs := by
    intro hx
    have h := ChainAbove_mem_isSome s ancHash ancH oldHs hold cand.hash hx
    rw [hcand] at h
    simp at h
  have hpeH : pe.header.height = ancH + newHs.length := by
    obtain ⟨e, he, heH⟩ := chain_headD_lookup s ancHash ancH ae hae haeH newHs hnew
    have h2 : alookup s.liveHeaders (newHs.headD ancHash) = some pe := by
      rw [← hplink]; exact hpe
    rw [he] at h2
    cases h2
    exact heH
  have hvalid : cand.height = pe.header.height + 1 := by omega
  have hteH : te.header.height = ancH + oldHs.length := by
    obtain ⟨e, he, heH⟩ := chain_headD_lookup s ancHash ancH ae hae haeH oldHs hold
    have h2 : alookup s.liveHeaders (oldHs.headD ancHash) = some te := by
      rw [← htipIs]; exact hte
    rw [he] at h2
    cases h2
    exact heH
  have hlook1 : alookup
      (addLiveEntry s cand (pe.chainWork + blockWork cand.bits)).liveHeaders cand.hash =
      some ⟨cand, pe.chainWork + blockWork cand.bits, false⟩ := by
    simp [addLiveEntry, alookup_aset]
  have hlook2 : alookup
      (addLiveEntry s cand (pe.chainWork + blockWork cand.bits)).liveHeaders s.tipHash =
      some te := by
    simp [addLiveEntry, alookup_aset, htipne, hte]
  have hanc1 : alookup
      (addLiveEntry s cand (pe.chainWork + blockWork cand.bits)).liveHeaders ancHash =
      some ae := by
    simp [addLiveEntry, alookup_aset, hancne, hae]
  have hs1new : ChainAbove (addLiveEntry s cand (pe.chainWork + blockWork cand.bits))
      ancHash ancH (cand.hash :: newHs) := by
    refine ⟨⟨⟨cand, pe.chainWork + blockWork cand.bits, false⟩, hlook1, ?_, ?_⟩,
      ChainAbove_addLiveEntry s cand _ ancHash ancH hcand newHs hnew⟩
    · exact hheight
    · exact hplink
  have hs1old := ChainAbove_addLiveEntry s cand (pe.chainWork + blockWork cand.bits)
    ancHash ancH hcand oldHs hold
  have hdisj1 : ∀ x ∈ cand.hash :: newHs, x ∉ oldHs := by
    intro x hx
    rcases List.mem_cons.mp hx with rfl | hx2
    · exact hcandO
    · exact hdisj x hx2
  have hancN1 : ancHash ∉ cand.hash :: newHs := by
    intro hx
    rcases List.mem_cons.mp hx with hE | hx2
    · exact hancne hE
    · exact hancN hx2
  have hfuel : (cand.hash :: newHs).length + oldHs.length ≤
      cand.height + te.header.height + 1 := by
    simp only [List.length_cons]
    omega
  have hwalk := walkBack_spec (addLiveEntry s cand (pe.chainWork + blockWork cand.bits))
    ancHash ancH ae hanc1 haeH (cand.height + te.header.height + 1)
    (cand.hash :: newHs) oldHs hs1new hs1old hdisj1 hancN1 hancO hfuel
  simp only [List.headD_cons] at hwalk
  rw [← htipIs] at hwalk
  have hdeep1 : ¬ oldHs.length ≤
      (addLiveEntry s cand (pe.chainWork + blockWork cand.bits)).reorgHeightThreshold := by
    show ¬ oldHs.length ≤ s.reorgHeightThreshold
    omega
  have hres : insertHeader blockWork s cand =
      (addLiveEntry s cand (pe.chainWork + blockWork cand.bits),
        { added := true, priorTip := some te.header }) := by
    by_cases hw : te.chainWork < pe.chainWork + blockWork cand.bits
    · have hreorg : handleReorg (addLiveEntry s cand (pe.chainWork + blockWork cand.bits))
          cand.hash s.tipHash = none := by
        simp only [handleReorg, hlook1, hlook2]
        rw [hwalk]
        dsimp only
        rw [if_neg hdeep1]
      simp [insertHeader, hcand, hpe, hvalid, hte, hw, hreorg]
    · simp [insertHeader, hcand, hpe, hvalid, hte, hw]
  rw [hres]
  refine ⟨rfl, rfl, rfl, rfl, rfl, ?_, ?_⟩
  · simp [addLiveEntry, alookup_aset]
  · intro h hne
    simp [addLiveEntry, alookup_aset, hne]

theorem insertHeader_reorg_rejected_witness :
    (insertHeader (fun b => b)
        ⟨[(10, ⟨⟨1, 0, 0, 0, 2, 0, 1, 10⟩, 10, true⟩),
          (21, ⟨⟨1, 10, 0, 0, 2, 0, 2, 21⟩, 11, true⟩),
          (22, ⟨⟨1, 21, 0, 0, 2, 0, 3, 22⟩, 12, true⟩),
          (31, ⟨⟨1, 10, 0, 0, 2, 0, 2, 31⟩, 11, false⟩),
          (32, ⟨⟨1, 31, 0, 0, 2, 0, 3, 32⟩, 12, false⟩)],
         [(1, 10), (2, 21), (3, 22)], 22, 1⟩
        ⟨1, 32, 0, 0, 5, 0, 4, 33⟩).1.tipHash = 22 ∧
    (insertHeader (fun b => b)
        ⟨[(10, ⟨⟨1, 0, 0, 0, 2, 0, 1, 10⟩, 10, true⟩),
          (21, ⟨⟨1, 10, 0, 0, 2, 0, 2, 21⟩, 11, true⟩),
          (22, ⟨⟨1, 21, 0, 0, 2, 0, 3, 22⟩, 12, true⟩),
          (31, ⟨⟨1, 10, 0, 0, 2, 0, 2, 31⟩, 11, false⟩),
          (32, ⟨⟨1, 31, 0, 0, 2, 0, 3, 32⟩, 12, false⟩)],
         [(1, 10), (2, 21), (3, 22)], 22, 1⟩
        ⟨1, 32, 0, 0, 5, 0, 4, 33⟩).2.isActiveTip = false := by
  have h := insertHeader_reorg_rejected (fun b => b)
    ⟨[(10, ⟨⟨1, 0, 0, 0, 2, 0, 1, 10⟩, 10, true⟩),
      (21, ⟨⟨1, 10, 0, 0, 2, 0, 2, 21⟩, 11, true⟩),
      (22, ⟨⟨1, 21, 0, 0, 2, 0, 3, 22⟩, 12, true⟩),
      (31, ⟨⟨1, 10, 0, 0, 2, 0, 2, 31⟩, 11, false⟩),
      (32, ⟨⟨1, 31, 0, 0, 2, 0, 3, 32⟩, 12, false⟩)],
     [(1, 10), (2, 21), (3, 22)], 22, 1⟩
    ⟨1, 32, 0, 0, 5, 0, 4, 33⟩ 10 1
    ⟨⟨1, 0, 0, 0, 2, 0, 1, 10⟩, 10, true⟩
    ⟨⟨1, 31, 0, 0, 2, 0, 3, 32⟩, 12, false⟩
    ⟨⟨1, 21, 0, 0, 2, 0, 3, 22⟩, 12, true⟩
    [22, 21] [32, 31]
    rfl rfl
    ⟨⟨⟨⟨1, 21, 0, 0, 2, 0, 3, 22⟩, 12, true⟩, rfl, rfl, rfl⟩,
      ⟨⟨⟨1, 10, 0, 0, 2, 0, 2, 21⟩, 11, true⟩, rfl, rfl, rfl⟩, trivial⟩
    ⟨⟨⟨⟨1, 31, 0, 0, 2, 0, 3, 32⟩, 12, false⟩, rfl, rfl, rfl⟩,
      ⟨⟨⟨1, 10, 0, 0, 2, 0, 2, 31⟩, 11, false⟩, rfl, rfl, rfl⟩, trivial⟩
    rfl rfl rfl rfl rfl rfl
    (by decide) (by decide) (by decide) (by decide)
  exact ⟨h.1, h.2.2.1⟩

end Chaintracks
